import Mathlib

/-!
Verification of the archive component of epub-rs (src/archive.rs).

The program wraps a zip container: it parses the container's index into an
ordered list of entry names, resolves a logical name to decompressed bytes
with a percent-decoding fallback, and rewrites the container so that one
entry's content is replaced while every other entry is raw-copied at the
compressed-byte level.

Shallow embedding conventions:
- Bytes and entry names are `List Nat` (a Rust `String` is exactly its
  UTF-8 byte sequence, so string equality is byte-list equality).
- A parsed zip container (`ZipArchive`) is its ordered entry list.  Each
  `Entry` carries its name, its decompressed content, its compressed-side
  metadata (compression method, compressed size, CRC checksum), and fault
  flags that stand for the possible I/O failures of the underlying reader:
  `openFault` makes the zip layer's by-name / by-index reader construction
  fail with a non-not-found error, `readFault` makes decompressing reads
  fail, `rawFault` makes the raw (compressed) copy of the entry fail.
- The destination of a mutation is a `Sink` with fault flags for its
  write operations.
- Rust `Result`/`anyhow::Error` becomes `Except` with a small error
  taxonomy; `.unwrap()` on an error becomes the distinguished
  `ModResult.panic` outcome, which is not a returned value.
-/

deriving instance DecidableEq for Except

namespace EpubRs

/-- Byte strings: file contents and entry names (UTF-8 bytes). -/
abbrev Bytes := List Nat

/-- One zip entry as the zip layer exposes it: name, decompressed content,
compressed representation metadata, and fault flags modelling the possible
I/O failures of the underlying byte source for this entry. -/
structure Entry where
  name : Bytes
  content : Bytes
  method : Nat
  csize : Nat
  crc : Nat
  openFault : Bool
  readFault : Bool
  rawFault : Bool
deriving Repr, DecidableEq

/-- Errors of the zip layer's lookup (zip::result::ZipError): the
distinguished FileNotFound case, and every other (I/O-like) error. -/
inductive ZipErr
| fileNotFound
| ioErr
deriving Repr, DecidableEq

/-- A parsed zip container: its entries in physical index order. -/
structure ZipArchive where
  entries : List Entry
deriving Repr, DecidableEq

/-- Mirrors zip::ZipArchive::by_name: exact name lookup in the index; a
missing name is FileNotFound; an entry whose reader cannot be constructed
yields a non-not-found error. -/
def ZipArchive.by_name (z : ZipArchive) (n : Bytes) : Except ZipErr Entry :=
  match z.entries.find? (fun e => e.name == n) with
  | none => .error .fileNotFound
  | some e => if e.openFault then .error .ioErr else .ok e

/-- Mirrors the EpubArchive struct (src/archive.rs lines 15-19): the zip
handle and the `files` list of entry names. The `path` field is not
observed by any claim and is omitted. -/
structure EpubArchive where
  zip : ZipArchive
  files : List Bytes
deriving Repr, DecidableEq

/-- Mirrors EpubArchive::from_reader (src/archive.rs lines 43-53) on an
already-parsed container. Modelled from the spec: the zip crate's
file_names enumeration (an external dependency, not part of this
repository) is taken, as the spec states, to list the names in the
container's physical index order. Parse failure of a broken container is
out of scope of the claims. -/
def from_reader (z : ZipArchive) : EpubArchive :=
  { zip := z, files := z.entries.map Entry.name }

/-- Error taxonomy of the wrapper (the spec's classification of the
anyhow::Error values the code produces): a missing entry, an underlying
I/O or zip-layer fault, and a UTF-8 decoding failure. -/
inductive ArchErr
| entryNotFound
| ioError
| invalidEncoding
deriving Repr, DecidableEq

/-- Value of one hexadecimal digit byte, if it is one. -/
def hexVal (b : Nat) : Option Nat :=
  if 48 ≤ b ∧ b ≤ 57 then some (b - 48)
  else if 65 ≤ b ∧ b ≤ 70 then some (b - 55)
  else if 97 ≤ b ∧ b ≤ 102 then some (b - 87)
  else none

/-- Mirrors percent_encoding::percent_decode: a '%' (byte 37) followed by
two hex digits decodes to one byte; otherwise every byte passes through
unchanged (a '%' not followed by two hex digits is literal). -/
def percentDecode : Bytes → Bytes
  | [] => []
  | 37 :: h :: l :: rest =>
    match hexVal h, hexVal l with
    | some hv, some lv => (hv * 16 + lv) :: percentDecode rest
    | _, _ => 37 :: percentDecode (h :: l :: rest)
  | b :: rest => b :: percentDecode rest

/-- A UTF-8 continuation byte. -/
def isCont (b : Nat) : Bool := decide (128 ≤ b ∧ b ≤ 191)

/-- Strict UTF-8 validity of a byte sequence (as Rust's str::from_utf8 /
Cow.decode_utf8 check it): rejects overlong forms, surrogates and code
points above 0x10FFFF. -/
def isValidUtf8 : Bytes → Bool
  | [] => true
  | b0 :: bs =>
    if b0 ≤ 127 then isValidUtf8 bs
    else if 194 ≤ b0 ∧ b0 ≤ 223 then
      match bs with
      | b1 :: bs2 => isCont b1 && isValidUtf8 bs2
      | [] => false
    else if b0 = 224 then
      match bs with
      | b1 :: b2 :: bs2 => decide (160 ≤ b1 ∧ b1 ≤ 191) && isCont b2 && isValidUtf8 bs2
      | _ => false
    else if (225 ≤ b0 ∧ b0 ≤ 236) ∨ b0 = 238 ∨ b0 = 239 then
      match bs with
      | b1 :: b2 :: bs2 => isCont b1 && isCont b2 && isValidUtf8 bs2
      | _ => false
    else if b0 = 237 then
      match bs with
      | b1 :: b2 :: bs2 => decide (128 ≤ b1 ∧ b1 ≤ 159) && isCont b2 && isValidUtf8 bs2
      | _ => false
    else if b0 = 240 then
      match bs with
      | b1 :: b2 :: b3 :: bs2 => decide (144 ≤ b1 ∧ b1 ≤ 191) && isCont b2 && isCont b3 && isValidUtf8 bs2
      | _ => false
    else if 241 ≤ b0 ∧ b0 ≤ 243 then
      match bs with
      | b1 :: b2 :: b3 :: bs2 => isCont b1 && isCont b2 && isCont b3 && isValidUtf8 bs2
      | _ => false
    else if b0 = 244 then
      match bs with
      | b1 :: b2 :: b3 :: bs2 => decide (128 ≤ b1 ∧ b1 ≤ 143) && isCont b2 && isCont b3 && isValidUtf8 bs2
      | _ => false
    else false

/-- Mirrors EpubArchive::get_entry (src/archive.rs lines 60-79): exact
lookup first; a non-not-found lookup error or a read fault returns early;
on FileNotFound the name is percent-decoded, the decode is validated as
UTF-8 (the Utf8Error of decode_utf8 propagates), and the decoded name is
looked up. -/
def EpubArchive.get_entry (a : EpubArchive) (name : Bytes) : Except ArchErr Bytes :=
  match a.zip.by_name name with
  | .ok e => if e.readFault then .error .ioError else .ok e.content
  | .error .ioErr => .error .ioError
  | .error .fileNotFound =>
    let d := percentDecode name
    if isValidUtf8 d then
      match a.zip.by_name d with
      | .ok e => if e.readFault then .error .ioError else .ok e.content
      | .error .fileNotFound => .error .entryNotFound
      | .error .ioErr => .error .ioError
    else .error .invalidEncoding

/-- Mirrors EpubArchive::get_entry_as_str (src/archive.rs lines 86-89):
String::from_utf8 on the resolved bytes; the returned Rust String is its
UTF-8 byte sequence. -/
def EpubArchive.get_entry_as_str (a : EpubArchive) (name : Bytes) : Except ArchErr Bytes :=
  match a.get_entry name with
  | .ok c => if isValidUtf8 c then .ok c else .error .invalidEncoding
  | .error e => .error e

/-- The destination file of modify_entry, with fault flags for its write
operations: start_file, write_all, and the final central-directory write
of finish. -/
structure Sink where
  startFileFault : Bool
  writeFault : Bool
  finishFault : Bool
deriving Repr, DecidableEq

/-- Modelled from the spec: the freshly encoded target entry written by
start_file with zip::write::FileOptions::default() plus write_all. The
compression itself lives in the external zip/flate2 crates; its metadata
(default method, recomputed size and checksum) is opaque to every claim,
so the method is the crate default (Deflated, 8) and size/checksum are
simple stand-ins. A fresh entry has no fault flags set. -/
def freshEntry (n c : Bytes) : Entry :=
  { name := n, content := c, method := 8, csize := c.length, crc := 0,
    openFault := false, readFault := false, rawFault := false }

/-- How one call of modify_entry terminates: normal return, a typed error
returned to the caller, or a panic (an .unwrap() on an error value). -/
inductive ModResult
| ok
| err (e : ArchErr)
| panic
deriving Repr, DecidableEq

/-- Result of modify_entry: how it terminated, and the entries it had
written to the destination by then (in write order). -/
structure ModOut where
  res : ModResult
  written : List Entry
deriving Repr, DecidableEq

/-- Mirrors the write loop of EpubArchive::modify_entry (src/archive.rs
lines 126-140), accumulator first: by_index(i).unwrap() panics on an open
fault; the target entry is freshly written via start_file? / write_all?
(typed errors); every other entry goes through raw_copy_file(file).unwrap()
(panic on a source read fault or a destination write fault); at the end
finish().unwrap() panics on a fault. -/
def writeLoop (s : Sink) (t c : Bytes) : List Entry → List Entry → ModOut
  | acc, [] => if s.finishFault then ⟨.panic, acc⟩ else ⟨.ok, acc⟩
  | acc, e :: rest =>
    if e.openFault then ⟨.panic, acc⟩
    else if e.name == t then
      if s.startFileFault then ⟨.err .ioError, acc⟩
      else if s.writeFault then ⟨.err .ioError, acc⟩
      else writeLoop s t c (acc ++ [freshEntry e.name c]) rest
    else
      if e.rawFault || s.writeFault then ⟨.panic, acc⟩
      else writeLoop s t c (acc ++ [e]) rest

/-- Mirrors EpubArchive::modify_entry (src/archive.rs lines 108-142): an
exact by_name existence check (FileNotFound becomes the "File not found"
error, any other lookup error is returned), before anything is written to
the destination; then the write loop over the source entries in index
order. -/
def EpubArchive.modify_entry (a : EpubArchive) (s : Sink) (page : Bytes) (newContent : Bytes) : ModOut :=
  match a.zip.by_name page with
  | .error .fileNotFound => ⟨.err .entryNotFound, []⟩
  | .error .ioErr => ⟨.err .ioError, []⟩
  | .ok _ => writeLoop s page newContent [] a.zip.entries

/-- No fault flag is set on this entry: all its reads succeed. -/
def Entry.noFault (e : Entry) : Prop :=
  e.openFault = false ∧ e.readFault = false ∧ e.rawFault = false

instance (e : Entry) : Decidable e.noFault := by
  unfold Entry.noFault; infer_instance

/-- Every read of the source archive succeeds. -/
def ZipArchive.NoFaults (z : ZipArchive) : Prop :=
  ∀ e ∈ z.entries, e.noFault

instance (z : ZipArchive) : Decidable z.NoFaults := by
  unfold ZipArchive.NoFaults; infer_instance

/-- Every write to the destination succeeds. -/
def Sink.noFault (s : Sink) : Prop :=
  s.startFileFault = false ∧ s.writeFault = false ∧ s.finishFault = false

instance (s : Sink) : Decidable s.noFault := by
  unfold Sink.noFault; infer_instance

/-- Well-formed container index: entry names are unique (the data-model
invariant of the format) and are valid UTF-8 (the zip layer exposes them
as Rust Strings). -/
def WF (z : ZipArchive) : Prop :=
  (z.entries.map Entry.name).Nodup ∧ ∀ e ∈ z.entries, isValidUtf8 e.name = true

instance (z : ZipArchive) : Decidable (WF z) := by
  unfold WF; infer_instance

/-- The per-entry effect of a completed modify_entry write loop: the
target entry is rewritten fresh with the new content, every other entry
is kept whole. -/
def replaceEntry (t c : Bytes) (e : Entry) : Entry :=
  if e.name == t then freshEntry e.name c else e

/-- Whether an operation of the wrapper returned successfully. -/
def isOkE {α : Type} : Except ArchErr α → Bool
  | .ok _ => true
  | .error _ => false

/-- Concrete fault-free entry named "a" (byte 97). -/
def wEntryA : Entry := ⟨[97], [1, 2], 8, 2, 5, false, false, false⟩

/-- Concrete fault-free entry named "bc" (bytes 98, 99), stored uncompressed. -/
def wEntryBC : Entry := ⟨[98, 99], [3], 0, 1, 7, false, false, false⟩

/-- Concrete two-entry archive with names "a" and "bc". -/
def wArchive : ZipArchive := ⟨[wEntryA, wEntryBC]⟩

/-- Concrete fault-free entry named "abc". -/
def wEntryABC : Entry := ⟨[97, 98, 99], [10, 11], 8, 2, 3, false, false, false⟩

/-- Archive holding only "abc", reachable from the undecoded name "a%62c"
only through the percent-decoding fallback. -/
def wArchiveABC : ZipArchive := ⟨[wEntryABC]⟩

/-- A destination sink none of whose writes fault. -/
def okSink : Sink := ⟨false, false, false⟩

/-- Entry named "b" whose raw (compressed) copy faults. -/
def faultEntryB : Entry := ⟨[98], [2], 8, 1, 0, false, false, true⟩

/-- Archive whose non-target entry "b" faults during raw copy. -/
def faultArchive : ZipArchive := ⟨[wEntryA, faultEntryB]⟩

/-! Helper lemmas. -/

theorem from_reader_zip (z : ZipArchive) : (from_reader z).zip = z := rfl

theorem from_reader_files (z : ZipArchive) : (from_reader z).files = z.entries.map Entry.name := rfl

theorem res_mk (r : ModResult) (w : List Entry) : (ModOut.mk r w).res = r := rfl

theorem written_mk (r : ModResult) (w : List Entry) : (ModOut.mk r w).written = w := rfl

theorem entries_mk (es : List Entry) : (ZipArchive.mk es).entries = es := rfl

theorem replaceEntry_name (t c : Bytes) (e : Entry) : (replaceEntry t c e).name = e.name := by
  unfold replaceEntry freshEntry
  split <;> rfl

theorem find?_name_none (es : List Entry) (n : Bytes) (h : n ∉ es.map Entry.name) :
    es.find? (fun e => e.name == n) = none := by
  induction es with
  | nil => rfl
  | cons e rest ih =>
    simp only [List.map_cons, List.mem_cons] at h
    push_neg at h
    have hne : (e.name == n) = false := by
      simp only [beq_eq_false_iff_ne]
      exact fun hh => h.1 hh.symm
    rw [List.find?_cons, hne]
    exact ih h.2

theorem find?_name_some (es : List Entry) (n : Bytes) (h : n ∈ es.map Entry.name) :
    ∃ e ∈ es, es.find? (fun e => e.name == n) = some e ∧ e.name = n := by
  induction es with
  | nil => simp at h
  | cons e rest ih =>
    by_cases hn : e.name = n
    · refine ⟨e, List.mem_cons_self e rest, ?_, hn⟩
      have hb : (e.name == n) = true := by simp [hn]
      rw [List.find?_cons, hb]
    · have h' : n ∈ rest.map Entry.name := by
        simp only [List.map_cons, List.mem_cons] at h
        rcases h with h | h
        · exact absurd h.symm hn
        · exact h
      obtain ⟨e', he', hf, hname⟩ := ih h'
      refine ⟨e', List.mem_cons_of_mem _ he', ?_, hname⟩
      have hb : (e.name == n) = false := by simp [hn]
      rw [List.find?_cons, hb]
      exact hf

theorem find?_map_replace (t c n : Bytes) (es : List Entry) :
    (es.map (replaceEntry t c)).find? (fun e => e.name == n)
      = Option.map (replaceEntry t c) (es.find? (fun e => e.name == n)) := by
  induction es with
  | nil => rfl
  | cons e rest ih =>
    rw [List.map_cons, List.find?_cons, List.find?_cons, replaceEntry_name]
    cases hb : (e.name == n)
    · exact ih
    · rfl

theorem map_name_replace (t c : Bytes) (es : List Entry) :
    (es.map (replaceEntry t c)).map Entry.name = es.map Entry.name := by
  induction es with
  | nil => rfl
  | cons e rest ih =>
    simp only [List.map_cons, replaceEntry_name, ih]

theorem by_name_of_not_mem (z : ZipArchive) (n : Bytes) (h : n ∉ z.entries.map Entry.name) :
    z.by_name n = .error .fileNotFound := by
  unfold ZipArchive.by_name
  rw [find?_name_none z.entries n h]

theorem by_name_of_mem (z : ZipArchive) (n : Bytes) (hz : z.NoFaults)
    (h : n ∈ z.entries.map Entry.name) :
    ∃ e ∈ z.entries, z.by_name n = .ok e ∧ e.name = n ∧ e.noFault := by
  obtain ⟨e, he, hf, hname⟩ := find?_name_some z.entries n h
  refine ⟨e, he, ?_, hname, hz e he⟩
  unfold ZipArchive.by_name
  rw [hf]
  simp [(hz e he).1]

theorem get_entry_of_by_name_ok (a : EpubArchive) (n : Bytes) (e : Entry)
    (h : a.zip.by_name n = .ok e) (hr : e.readFault = false) :
    a.get_entry n = .ok e.content := by
  unfold EpubArchive.get_entry
  rw [h]
  simp [hr]

theorem get_entry_of_by_name_io (a : EpubArchive) (n : Bytes)
    (h : a.zip.by_name n = .error .ioErr) :
    a.get_entry n = .error .ioError := by
  unfold EpubArchive.get_entry
  rw [h]

theorem get_entry_fallback (a : EpubArchive) (n : Bytes)
    (h : a.zip.by_name n = .error .fileNotFound) :
    a.get_entry n =
      (if isValidUtf8 (percentDecode n) then
        match a.zip.by_name (percentDecode n) with
        | .ok e => if e.readFault then .error .ioError else .ok e.content
        | .error .fileNotFound => .error .entryNotFound
        | .error .ioErr => .error .ioError
      else .error .invalidEncoding) := by
  unfold EpubArchive.get_entry
  rw [h]

theorem writeLoop_noFault (s : Sink) (t c : Bytes) (es : List Entry) :
    ∀ acc : List Entry, s.noFault → (∀ e ∈ es, e.noFault) →
      writeLoop s t c acc es = ⟨.ok, acc ++ es.map (replaceEntry t c)⟩ := by
  induction es with
  | nil =>
    intro acc hs _
    simp [writeLoop, hs.2.2]
  | cons e rest ih =>
    intro acc hs he
    obtain ⟨ho, hr, hw⟩ := he e (List.mem_cons_self e rest)
    have hrest := fun x hx => he x (List.mem_cons_of_mem _ hx)
    by_cases hname : (e.name == t) = true
    · rw [show writeLoop s t c acc (e :: rest)
          = writeLoop s t c (acc ++ [freshEntry e.name c]) rest by
        simp [writeLoop, ho, hname, hs.1, hs.2.1]]
      rw [ih _ hs hrest]
      simp [replaceEntry, hname, List.append_assoc]
    · rw [show writeLoop s t c acc (e :: rest)
          = writeLoop s t c (acc ++ [e]) rest by
        simp [writeLoop, ho, hname, hw, hs.2.1]]
      rw [ih _ hs hrest]
      simp [replaceEntry, hname, List.append_assoc]

theorem modify_entry_ok (z : ZipArchive) (s : Sink) (t c : Bytes)
    (hs : s.noFault) (hz : z.NoFaults) (ht : t ∈ z.entries.map Entry.name) :
    (from_reader z).modify_entry s t c = ⟨.ok, z.entries.map (replaceEntry t c)⟩ := by
  obtain ⟨e0, he0, hby, hname, hnf⟩ := by_name_of_mem z t hz ht
  unfold EpubArchive.modify_entry
  have hzz : (from_reader z).zip = z := rfl
  rw [hzz, hby]
  have := writeLoop_noFault s t c z.entries [] hs hz
  simpa using this

theorem modify_entry_not_mem (z : ZipArchive) (s : Sink) (n c : Bytes)
    (h : n ∉ z.entries.map Entry.name) :
    (from_reader z).modify_entry s n c = ⟨.err .entryNotFound, []⟩ := by
  unfold EpubArchive.modify_entry
  have hzz : (from_reader z).zip = z := rfl
  rw [hzz, by_name_of_not_mem z n h]

theorem by_name_replace_target (z : ZipArchive) (t c : Bytes)
    (ht : t ∈ z.entries.map Entry.name) :
    (ZipArchive.mk (z.entries.map (replaceEntry t c))).by_name t = .ok (freshEntry t c) := by
  obtain ⟨e0, he0, hf, hname⟩ := find?_name_some z.entries t ht
  unfold ZipArchive.by_name
  rw [entries_mk, find?_map_replace, hf]
  have hre : replaceEntry t c e0 = freshEntry t c := by
    unfold replaceEntry
    simp [hname]
  simp [hre, freshEntry]

theorem by_name_replace_other (z : ZipArchive) (t c y : Bytes)
    (hy : y ∈ z.entries.map Entry.name) (hyt : y ≠ t) :
    (ZipArchive.mk (z.entries.map (replaceEntry t c))).by_name y = z.by_name y := by
  unfold ZipArchive.by_name
  rw [entries_mk, find?_map_replace]
  obtain ⟨e0, he0, hf, hname⟩ := find?_name_some z.entries y hy
  rw [hf]
  have hre : replaceEntry t c e0 = e0 := by
    unfold replaceEntry
    have hb : (e0.name == t) = false := by simp [hname, hyt]
    simp [hb]
  simp [hre]

theorem get_entry_mem_ok (a : EpubArchive) (n : Bytes) (hz : a.zip.NoFaults)
    (h : n ∈ a.zip.entries.map Entry.name) :
    ∃ e ∈ a.zip.entries, e.name = n ∧ a.get_entry n = .ok e.content := by
  obtain ⟨e, he, hby, hname, hnf⟩ := by_name_of_mem a.zip n hz h
  exact ⟨e, he, hname, get_entry_of_by_name_ok a n e hby hnf.2.1⟩

theorem get_entry_fallback_ok (a : EpubArchive) (n : Bytes) (hwf : WF a.zip)
    (hz : a.zip.NoFaults) (h1 : n ∉ a.zip.entries.map Entry.name)
    (h2 : percentDecode n ∈ a.zip.entries.map Entry.name) :
    ∃ e ∈ a.zip.entries, e.name = percentDecode n ∧ a.get_entry n = .ok e.content := by
  obtain ⟨e, he, hby, hname, hnf⟩ := by_name_of_mem a.zip (percentDecode n) hz h2
  have hvalid : isValidUtf8 (percentDecode n) = true := by
    rw [← hname]
    exact hwf.2 e he
  refine ⟨e, he, hname, ?_⟩
  rw [get_entry_fallback a n (by_name_of_not_mem a.zip n h1), if_pos hvalid, hby]
  simp [hnf.2.1]

theorem get_entry_absent (a : EpubArchive) (n : Bytes)
    (h1 : n ∉ a.zip.entries.map Entry.name)
    (h2 : percentDecode n ∉ a.zip.entries.map Entry.name) :
    a.get_entry n =
      .error (if isValidUtf8 (percentDecode n) then .entryNotFound else .invalidEncoding) := by
  rw [get_entry_fallback a n (by_name_of_not_mem a.zip n h1)]
  by_cases hv : isValidUtf8 (percentDecode n) = true
  · rw [if_pos hv, if_pos hv, by_name_of_not_mem a.zip _ h2]
  · rw [if_neg hv, if_neg hv]

/-! Claim theorems. -/

/-- C1: round-trip of mutation and resolution. For every fault-free source
archive, every fault-free destination, and every target name present in the
source index by exact match, modify_entry succeeds and get_entry on the
written destination returns exactly the new content bytes. -/
theorem replace_then_get_roundtrip (z : ZipArchive) (s : Sink) (t c : Bytes)
    (hs : s.noFault) (hz : z.NoFaults) (ht : t ∈ (from_reader z).files) :
    ((from_reader z).modify_entry s t c).res = .ok ∧
    (from_reader ⟨((from_reader z).modify_entry s t c).written⟩).get_entry t = .ok c := by
  rw [modify_entry_ok z s t c hs hz ht]
  simp only [res_mk, written_mk]
  refine ⟨trivial, ?_⟩
  have hby : (from_reader (⟨z.entries.map (replaceEntry t c)⟩ : ZipArchive)).zip.by_name t
      = .ok (freshEntry t c) := by
    rw [from_reader_zip]
    exact by_name_replace_target z t c ht
  exact get_entry_of_by_name_ok _ t _ hby rfl

/-- C1 witness at the archive with names "a", "bc", target "a", new
content bytes 9, 9. -/
theorem replace_then_get_roundtrip_witness :
    ((from_reader wArchive).modify_entry okSink [97] [9, 9]).res = .ok ∧
    (from_reader ⟨((from_reader wArchive).modify_entry okSink [97] [9, 9]).written⟩).get_entry [97]
      = .ok [9, 9] :=
  replace_then_get_roundtrip wArchive okSink [97] [9, 9] (by decide) (by decide) (by decide)

/-- C2: non-target preservation. After a successful modify_entry, every
other name present in the source resolves in the destination to the very
same entry record as in the source - same decompressed bytes from
get_entry, and the identical Entry value from the index lookup, hence the
same compression method, compressed size and checksum. -/
theorem replace_preserves_other_entries (z : ZipArchive) (s : Sink) (t c y : Bytes)
    (hs : s.noFault) (hz : z.NoFaults) (ht : t ∈ (from_reader z).files)
    (hy : y ∈ (from_reader z).files) (hyt : y ≠ t) :
    ((from_reader z).modify_entry s t c).res = .ok ∧
    (from_reader ⟨((from_reader z).modify_entry s t c).written⟩).zip.by_name y
      = (from_reader z).zip.by_name y ∧
    (from_reader ⟨((from_reader z).modify_entry s t c).written⟩).get_entry y
      = (from_reader z).get_entry y := by
  rw [modify_entry_ok z s t c hs hz ht]
  simp only [res_mk, written_mk]
  have hbeq : (from_reader (⟨z.entries.map (replaceEntry t c)⟩ : ZipArchive)).zip.by_name y
      = (from_reader z).zip.by_name y := by
    rw [from_reader_zip, from_reader_zip]
    exact by_name_replace_other z t c y hy hyt
  refine ⟨trivial, hbeq, ?_⟩
  obtain ⟨e1, he1, hby, hname1, hnf1⟩ := by_name_of_mem z y hz hy
  have hbyd : (from_reader (⟨z.entries.map (replaceEntry t c)⟩ : ZipArchive)).zip.by_name y
      = .ok e1 := by
    rw [hbeq]
    exact hby
  rw [get_entry_of_by_name_ok _ y e1 hbyd hnf1.2.1,
    get_entry_of_by_name_ok _ y e1 hby hnf1.2.1]

/-- C2 witness: replacing "a" leaves "bc" with identical lookup result and
identical bytes. -/
theorem replace_preserves_other_entries_witness :
    ((from_reader wArchive).modify_entry okSink [97] [9, 9]).res = .ok ∧
    (from_reader ⟨((from_reader wArchive).modify_entry okSink [97] [9, 9]).written⟩).zip.by_name [98, 99]
      = (from_reader wArchive).zip.by_name [98, 99] ∧
    (from_reader ⟨((from_reader wArchive).modify_entry okSink [97] [9, 9]).written⟩).get_entry [98, 99]
      = (from_reader wArchive).get_entry [98, 99] :=
  replace_preserves_other_entries wArchive okSink [97] [9, 9] [98, 99]
    (by decide) (by decide) (by decide) (by decide) (by decide)

/-- C3: membership and order preservation. After a successful
modify_entry, the destination's ordered entry-name list equals the
source's exactly. -/
theorem replace_preserves_names_order (z : ZipArchive) (s : Sink) (t c : Bytes)
    (hs : s.noFault) (hz : z.NoFaults) (ht : t ∈ (from_reader z).files) :
    ((from_reader z).modify_entry s t c).res = .ok ∧
    (from_reader ⟨((from_reader z).modify_entry s t c).written⟩).files
      = (from_reader z).files := by
  rw [modify_entry_ok z s t c hs hz ht]
  simp only [res_mk, written_mk]
  refine ⟨trivial, ?_⟩
  rw [from_reader_files, from_reader_files, entries_mk]
  exact map_name_replace t c z.entries

/-- C3 witness on the two-entry archive. -/
theorem replace_preserves_names_order_witness :
    ((from_reader wArchive).modify_entry okSink [97] [9, 9]).res = .ok ∧
    (from_reader ⟨((from_reader wArchive).modify_entry okSink [97] [9, 9]).written⟩).files
      = (from_reader wArchive).files :=
  replace_preserves_names_order wArchive okSink [97] [9, 9]
    (by decide) (by decide) (by decide)

/-- C4 counterexample: on the archive holding only "a", looking up "%FF"
finds nothing verbatim, its percent-decoded form (the single byte 255) is
also absent, yet get_entry does not fail with EntryNotFound - it fails
with the propagated UTF-8 decoding error. -/
theorem get_entry_notfound_error_cex :
    [37, 70, 70] ∉ (from_reader wArchiveABC).files ∧
    percentDecode [37, 70, 70] ∉ (from_reader wArchiveABC).files ∧
    (from_reader wArchiveABC).get_entry [37, 70, 70] = .error .invalidEncoding ∧
    (from_reader wArchiveABC).get_entry [37, 70, 70] ≠ .error .entryNotFound := by
  decide

/-- C4 (amended): for every well-formed, fault-free archive, get_entry
succeeds exactly when the name or its percent-decoded form appears in the
index; when neither holds it fails with EntryNotFound if the decoded name
is valid UTF-8 and with the decoding error otherwise; and a lookup error
other than not-found on the verbatim lookup is returned as an I/O error
without the fallback being attempted. -/
theorem get_entry_two_stage_resolution (z : ZipArchive) (n : Bytes)
    (hwf : WF z) (hz : z.NoFaults) :
    (isOkE ((from_reader z).get_entry n) = true ↔
      (n ∈ (from_reader z).files ∨ percentDecode n ∈ (from_reader z).files)) ∧
    (n ∉ (from_reader z).files → percentDecode n ∉ (from_reader z).files →
      (from_reader z).get_entry n =
        .error (if isValidUtf8 (percentDecode n) then .entryNotFound else .invalidEncoding)) ∧
    (∀ (a : EpubArchive) (m : Bytes), a.zip.by_name m = .error .ioErr →
      a.get_entry m = .error .ioError) := by
  refine ⟨⟨?_, ?_⟩, ?_, fun a m h => get_entry_of_by_name_io a m h⟩
  · intro hok
    by_contra hcon
    push_neg at hcon
    rw [get_entry_absent (from_reader z) n hcon.1 hcon.2] at hok
    simp [isOkE] at hok
  · intro hmem
    by_cases h1 : n ∈ (from_reader z).files
    · obtain ⟨e, he, hname, hget⟩ := get_entry_mem_ok (from_reader z) n hz h1
      rw [hget]
      rfl
    · have h2 : percentDecode n ∈ (from_reader z).files := hmem.resolve_left h1
      obtain ⟨e, he, hname, hget⟩ := get_entry_fallback_ok (from_reader z) n hwf hz h1 h2
      rw [hget]
      rfl
  · intro h1 h2
    exact get_entry_absent (from_reader z) n h1 h2

/-- C4 witness at the two-entry archive and the name "%61", which is
absent verbatim and decodes to the present name "a". -/
theorem get_entry_two_stage_resolution_witness :
    (isOkE ((from_reader wArchive).get_entry [37, 54, 49]) = true ↔
      ([37, 54, 49] ∈ (from_reader wArchive).files ∨
        percentDecode [37, 54, 49] ∈ (from_reader wArchive).files)) ∧
    ([37, 54, 49] ∉ (from_reader wArchive).files →
      percentDecode [37, 54, 49] ∉ (from_reader wArchive).files →
      (from_reader wArchive).get_entry [37, 54, 49] =
        .error (if isValidUtf8 (percentDecode [37, 54, 49]) then .entryNotFound
          else .invalidEncoding)) ∧
    (∀ (a : EpubArchive) (m : Bytes), a.zip.by_name m = .error .ioErr →
      a.get_entry m = .error .ioError) :=
  get_entry_two_stage_resolution wArchive [37, 54, 49] (by decide) (by decide)

/-- C5 counterexample: on the archive holding only "a" and "bc", the name
"%80" is absent verbatim and percent-decodes to the lone byte 128, which
is not valid UTF-8; get_entry then fails with the distinct decoding
error, not with EntryNotFound as the claim states. -/
theorem fallback_decode_error_cex :
    isValidUtf8 (percentDecode [37, 56, 48]) = false ∧
    (from_reader wArchive).get_entry [37, 56, 48] ≠ .error .entryNotFound ∧
    (from_reader wArchive).get_entry [37, 56, 48] = .error .invalidEncoding := by
  decide

/-- C5 (amended): for every archive and every name absent verbatim from
the index, if percent-decoding the name yields bytes that are not valid
UTF-8 then get_entry fails with the decoding error, and if the decoded
name is valid but also absent then get_entry fails with EntryNotFound. -/
theorem fallback_error_classification (a : EpubArchive) (n : Bytes)
    (h : a.zip.by_name n = .error .fileNotFound) :
    (isValidUtf8 (percentDecode n) = false → a.get_entry n = .error .invalidEncoding) ∧
    (isValidUtf8 (percentDecode n) = true →
      a.zip.by_name (percentDecode n) = .error .fileNotFound →
      a.get_entry n = .error .entryNotFound) := by
  constructor
  · intro hv
    rw [get_entry_fallback a n h]
    simp [hv]
  · intro hv h2
    rw [get_entry_fallback a n h, if_pos hv, h2]

/-- C5 witness at the two-entry archive and the absent name "%80". -/
theorem fallback_error_classification_witness :
    (isValidUtf8 (percentDecode [37, 56, 48]) = false →
      (from_reader wArchive).get_entry [37, 56, 48] = .error .invalidEncoding) ∧
    (isValidUtf8 (percentDecode [37, 56, 48]) = true →
      (from_reader wArchive).zip.by_name (percentDecode [37, 56, 48]) = .error .fileNotFound →
      (from_reader wArchive).get_entry [37, 56, 48] = .error .entryNotFound) :=
  fallback_error_classification (from_reader wArchive) [37, 56, 48] (by decide)

/-- C6: resolution asymmetry of the mutator. When the index contains the
percent-decoded form of a name but not the name itself, modify_entry with
that name fails with EntryNotFound (exact comparison only, nothing
written), while get_entry with the same name succeeds through the
fallback. -/
theorem modify_no_percent_fallback (z : ZipArchive) (s : Sink) (n c : Bytes)
    (hwf : WF z) (hz : z.NoFaults)
    (hn : n ∉ (from_reader z).files) (hd : percentDecode n ∈ (from_reader z).files) :
    (from_reader z).modify_entry s n c = ⟨.err .entryNotFound, []⟩ ∧
    isOkE ((from_reader z).get_entry n) = true := by
  refine ⟨modify_entry_not_mem z s n c hn, ?_⟩
  obtain ⟨e, he, hname, hget⟩ := get_entry_fallback_ok (from_reader z) n hwf hz hn hd
  rw [hget]
  rfl

/-- C6 witness: the archive holds "abc"; the name "a%62c" is absent
verbatim and decodes to "abc". -/
theorem modify_no_percent_fallback_witness :
    (from_reader wArchiveABC).modify_entry okSink [97, 37, 54, 50, 99] [9]
      = ⟨.err .entryNotFound, []⟩ ∧
    isOkE ((from_reader wArchiveABC).get_entry [97, 37, 54, 50, 99]) = true :=
  modify_no_percent_fallback wArchiveABC okSink [97, 37, 54, 50, 99] [9]
    (by decide) (by decide) (by decide) (by decide)

/-- C7: no partial write on a missing target. For every name absent from
the index by exact match, modify_entry returns EntryNotFound with an
empty write trace - the existence check precedes all destination
output. -/
theorem modify_missing_target_no_write (z : ZipArchive) (s : Sink) (n c : Bytes)
    (hn : n ∉ (from_reader z).files) :
    (from_reader z).modify_entry s n c = ⟨.err .entryNotFound, []⟩ :=
  modify_entry_not_mem z s n c hn

/-- C7 witness at the two-entry archive and the absent name "d". -/
theorem modify_missing_target_no_write_witness :
    (from_reader wArchive).modify_entry okSink [100] [9]
      = ⟨.err .entryNotFound, []⟩ :=
  modify_missing_target_no_write wArchive okSink [100] [9] (by decide)

/-- C8: on an archive whose non-target entry "b" suffers a read fault
while being raw-copied, modify_entry terminates by panic (the source's
.unwrap() on raw_copy_file), after having already written the fresh
target entry - not by returning a typed I/O error as the claim and the
function's own documentation state. -/
theorem modify_raw_copy_fault_panics :
    (from_reader faultArchive).modify_entry okSink [97] [9]
      = ⟨.panic, [freshEntry [97] [9]]⟩ := by
  decide

/-- C9: entry listing order and completeness. Opening a well-formed
container yields exactly the index's names, in physical index order, with
no duplicates; the listing is a pure field of the opened archive. -/
theorem entry_names_index_order (z : ZipArchive) (hwf : WF z) :
    (from_reader z).files = z.entries.map Entry.name ∧
    (from_reader z).files.Nodup :=
  ⟨rfl, hwf.1⟩

/-- C9 witness on the two-entry archive. -/
theorem entry_names_index_order_witness :
    (from_reader wArchive).files = wArchive.entries.map Entry.name ∧
    (from_reader wArchive).files.Nodup :=
  entry_names_index_order wArchive (by decide)

/-- C10: replacement content is a string. The target entry's written
bytes are exactly the UTF-8 bytes of the replacement string (a Rust str
is modelled as its valid UTF-8 byte sequence), so after a successful
modify_entry, get_entry_as_str on the target succeeds and returns that
string. -/
theorem replace_content_utf8_roundtrip (z : ZipArchive) (s : Sink) (t c : Bytes)
    (hs : s.noFault) (hz : z.NoFaults) (ht : t ∈ (from_reader z).files)
    (hc : isValidUtf8 c = true) :
    ((from_reader z).modify_entry s t c).res = .ok ∧
    (from_reader ⟨((from_reader z).modify_entry s t c).written⟩).get_entry t = .ok c ∧
    (from_reader ⟨((from_reader z).modify_entry s t c).written⟩).get_entry_as_str t = .ok c := by
  rw [modify_entry_ok z s t c hs hz ht]
  simp only [res_mk, written_mk]
  have hby : (from_reader (⟨z.entries.map (replaceEntry t c)⟩ : ZipArchive)).zip.by_name t
      = .ok (freshEntry t c) := by
    rw [from_reader_zip]
    exact by_name_replace_target z t c ht
  have hget : (from_reader (⟨z.entries.map (replaceEntry t c)⟩ : ZipArchive)).get_entry t
      = .ok c :=
    get_entry_of_by_name_ok _ t _ hby rfl
  refine ⟨trivial, hget, ?_⟩
  unfold EpubArchive.get_entry_as_str
  rw [hget]
  simp [hc]

/-- C10 witness: replacing "a" with the two-byte string "hi". -/
theorem replace_content_utf8_roundtrip_witness :
    ((from_reader wArchive).modify_entry okSink [97] [104, 105]).res = .ok ∧
    (from_reader ⟨((from_reader wArchive).modify_entry okSink [97] [104, 105]).written⟩).get_entry [97]
      = .ok [104, 105] ∧
    (from_reader ⟨((from_reader wArchive).modify_entry okSink [97] [104, 105]).written⟩).get_entry_as_str [97]
      = .ok [104, 105] :=
  replace_content_utf8_roundtrip wArchive okSink [97] [104, 105]
    (by decide) (by decide) (by decide) (by decide)

end EpubRs
